import Mathlib

/-!
Verification of the PetitionLetter core against its specification.

The development shallowly embeds the relevant program logic:
* the HTTP api client (`frontend` services, file src/unnamed/part_009);
* the interaction logger (file src/unnamed/part_010);
* the subject-conflict detector of the Argument Assembly layer
  (file src/unnamed/part_012, `utils/subjectDetector.ts`);
* the mapping graph, merge resolution engine, argument operations and
  provenance resolver, whose implementations (context/AppContext.tsx and the
  backend services) are not part of the available sources and are therefore
  modelled from the specification, as marked in each doc comment.
-/

namespace PetitionLetter

/-! ### API client (src/unnamed/part_009) -/

/-- An HTTP response as consumed by the api client `request` function:
the `ok` flag, the numeric status, the status text, and the outcome of
`response.json()` — `some v` when the body parses as JSON, `none` when
parsing fails (in the source, the failure branch of the `try`/`catch`
around `await response.json()`). -/
structure HttpResponse (α : Type) where
  ok : Bool
  status : Nat
  statusText : String
  jsonBody : Option α
deriving DecidableEq

/-- Result of `request`: a returned parsed body, a thrown `ApiError`
carrying status, statusText and the parsed error body (`none` models the
`data = null` branch), or a JSON parse failure on a successful response
(`response.json()` rejecting outside the ApiError path). -/
inductive RequestOutcome (α : Type) where
  | success (value : α)
  | apiError (status : Nat) (statusText : String) (data : Option α)
  | jsonParseFailure
deriving DecidableEq

/-- The api client `request` function (src/unnamed/part_009, lines 24–52):
on `!response.ok` it throws `ApiError(status, statusText, data)` where
`data` is the parsed JSON error body or `null`; otherwise it returns
`response.json()`. -/
def request {α : Type} (r : HttpResponse α) : RequestOutcome α :=
  if r.ok then
    match r.jsonBody with
    | some v => .success v
    | none => .jsonParseFailure
  else
    .apiError r.status r.statusText r.jsonBody

/-! ### Interaction logger (src/unnamed/part_010) -/

/-- One interaction log entry: timestamp, event type, and the data record
which the logger extends with the session id and the (nullable) project
id. -/
structure InteractionLog where
  timestamp : Nat
  event_type : String
  fields : List (String × String)
  session_id : String
  project_id : Option String
deriving DecidableEq

/-- The mutable state of `InteractionLoggerService`: the in-memory log
buffer plus the session and project identifiers merged into every
entry. -/
structure LoggerState where
  logs : List InteractionLog
  sessionId : String
  projectId : Option String
deriving DecidableEq

/-- `BATCH_SIZE` from src/unnamed/part_010. -/
def BATCH_SIZE : Nat := 50

/-- Outcome of the batched upload attempted inside `flush`'s `try` block;
the `catch` branch of the source corresponds to `failed`. -/
inductive UploadResult where
  | ok
  | failed
deriving DecidableEq

/-- `InteractionLoggerService.flush` (src/unnamed/part_010, lines 107–129):
an empty buffer returns immediately; otherwise the logs are uploaded and,
only on success, the buffer is cleared — the `catch` branch keeps the
buffer for a later retry. The upload outcome is passed explicitly. -/
def flush (s : LoggerState) (upload : UploadResult) : LoggerState :=
  if s.logs.isEmpty then s
  else
    match upload with
    | .ok => { s with logs := [] }
    | .failed => s

/-- The entry built by `log`: the caller's data extended with
`session_id` and `project_id` from the service state. -/
def mkEntry (s : LoggerState) (now : Nat) (eventType : String)
    (data : List (String × String)) : InteractionLog :=
  { timestamp := now, event_type := eventType, fields := data,
    session_id := s.sessionId, project_id := s.projectId }

/-- `InteractionLoggerService.log` (src/unnamed/part_010, lines 84–102):
pushes exactly one entry onto the buffer and, when the buffer has reached
`BATCH_SIZE` entries, triggers a flush. -/
def log (s : LoggerState) (now : Nat) (eventType : String)
    (data : List (String × String)) (upload : UploadResult) : LoggerState :=
  let s' := { s with logs := s.logs ++ [mkEntry s now eventType data] }
  if BATCH_SIZE ≤ s'.logs.length then flush s' upload else s'

/-! ### Theorems for the api client and the logger -/

/-- C9: `request` throws an `ApiError` carrying the HTTP status and
statusText (and the parsed error body when it is JSON, null otherwise)
for every response with `ok = false`, and returns the parsed JSON body
if and only if the response is ok — it never returns a value for a
failed response. -/
theorem request_error_contract {α : Type} (r : HttpResponse α) :
    (r.ok = false → request r = .apiError r.status r.statusText r.jsonBody) ∧
    (∀ v : α, request r = .success v ↔ (r.ok = true ∧ r.jsonBody = some v)) := by
  constructor
  · intro hok
    simp [request, hok]
  · intro v
    constructor
    · intro h
      by_cases hok : r.ok
      · cases hbody : r.jsonBody with
        | none => simp [request, hok, hbody] at h
        | some w =>
          simp only [request, hok, if_true, hbody] at h
          have hv : w = v := by injection h
          exact ⟨hok, congrArg some hv⟩
      · simp [request, hok] at h
    · rintro ⟨hok, hbody⟩
      simp [request, hok, hbody]

/-- Witness for C9 at concrete responses: a 404 with a JSON error body
throws the matching ApiError, and a 200 with body `5` returns `5`. -/
theorem request_error_contract_witness :
    request (HttpResponse.mk false 404 "Not Found" (some 7)) =
      .apiError 404 "Not Found" (some 7) ∧
    request (HttpResponse.mk true 200 "OK" (some 5)) = .success 5 := by
  refine ⟨(request_error_contract ⟨false, 404, "Not Found", some 7⟩).1 rfl, ?_⟩
  exact ((request_error_contract ⟨true, 200, "OK", some 5⟩).2 5).2 ⟨rfl, rfl⟩

/-- C10: `flush` is atomic on the log buffer — a failed upload leaves the
buffer unchanged for retry, a successful upload (or an empty buffer)
leaves it empty; `log` always appends exactly one entry, triggers a
flush exactly when the buffer reaches `BATCH_SIZE = 50` entries, and a
failed flush loses no recorded log. -/
theorem logger_flush_atomic (s : LoggerState) (now : Nat) (eventType : String)
    (data : List (String × String)) (upload : UploadResult) :
    (flush s .failed).logs = s.logs ∧
    (flush s .ok).logs = [] ∧
    BATCH_SIZE = 50 ∧
    (log s now eventType data .failed).logs
      = s.logs ++ [mkEntry s now eventType data] ∧
    (s.logs.length + 1 < BATCH_SIZE →
      (log s now eventType data upload).logs
        = s.logs ++ [mkEntry s now eventType data]) ∧
    (BATCH_SIZE ≤ s.logs.length + 1 →
      (log s now eventType data .ok).logs = []) := by
  refine ⟨?_, ?_, rfl, ?_, ?_, ?_⟩
  · cases h : s.logs with
    | nil => simp [flush, h]
    | cons a l => simp [flush, h]
  · by_cases h : s.logs.isEmpty
    · simp [flush, h, List.isEmpty_iff.mp h]
    · simp [flush, h]
  · by_cases h : BATCH_SIZE ≤ s.logs.length + 1
    · have hne : ¬(s.logs ++ [mkEntry s now eventType data]).isEmpty := by
        simp
      simp [log, flush, h, hne]
    · simp [log, h]
  · intro hlt
    have h : ¬ BATCH_SIZE ≤ s.logs.length + 1 := by omega
    simp [log, h]
  · intro hge
    have hne : ¬(s.logs ++ [mkEntry s now eventType data]).isEmpty := by
      simp
    simp [log, flush, hge, hne]

/-- Witness for C10 at concrete states: a one-entry buffer keeps its
logs across a failed flush, a log below the batch size only appends its
entry, and the 50th log triggers a flush that empties the buffer. -/
theorem logger_flush_atomic_witness :
    (flush (LoggerState.mk [mkEntry ⟨[], "s1", none⟩ 3 "error_mark" []] "s1" none)
        .failed).logs
      = [mkEntry ⟨[], "s1", none⟩ 3 "error_mark" []] ∧
    (log (LoggerState.mk [] "s1" none) 3 "error_mark" [] .failed).logs
      = [mkEntry ⟨[], "s1", none⟩ 3 "error_mark" []] ∧
    (log (LoggerState.mk
        (List.replicate 49 (mkEntry ⟨[], "s1", none⟩ 3 "error_mark" [])) "s1" none)
      7 "sentence_click" [] .ok).logs = [] := by
  refine ⟨?_, ?_, ?_⟩
  · exact (logger_flush_atomic
      ⟨[mkEntry ⟨[], "s1", none⟩ 3 "error_mark" []], "s1", none⟩
      3 "error_mark" [] .failed).1
  · have h := (logger_flush_atomic ⟨[], "s1", none⟩ 3 "error_mark" [] .failed).2.2.2.2.1
      (by decide)
    simpa using h
  · exact (logger_flush_atomic
      ⟨List.replicate 49 (mkEntry ⟨[], "s1", none⟩ 3 "error_mark" []), "s1", none⟩
      7 "sentence_click" [] .ok).2.2.2.2.2 (by simp [BATCH_SIZE])

/-! ### Subject-conflict detection (src/unnamed/part_012, utils/subjectDetector.ts) -/

/-- A named entity of the relationship graph: canonical name and type
(person, organization, award, …). `etype` renders the source's `type`
field, which is a reserved word here. -/
structure Entity where
  name : String
  etype : String
deriving DecidableEq

/-- The entity-graph data handed to the subject detector by
snippet_linker: per snippet id, the entities associated with it. -/
structure EntityGraphData where
  entitiesOf : List (String × List Entity)
deriving DecidableEq

/-- `entityGraph.getEntitiesForSnippet(id)`: entities of a snippet, empty
for an unknown snippet. -/
def getEntitiesForSnippet (g : EntityGraphData) (snippetId : String) : List Entity :=
  match g.entitiesOf.lookup snippetId with
  | some es => es
  | none => []

/-- A snippet as seen by the subject detector, which reads only its id. -/
structure SnippetRef where
  id : String
deriving DecidableEq

/-- The conflict record returned by `detectSubjectConflict`; `ctype`
renders the source's `type` field. -/
structure SubjectConflict where
  ctype : String
  existing : List String
  incoming : String
  message : String
deriving DecidableEq

/-- Insertion into a JS `Set` modelled over a list preserving first
insertion order, as `Array.from(set)` observes it. -/
def addSubject (acc : List String) (n : String) : List String :=
  if n ∈ acc then acc else acc ++ [n]

/-- The `existingSubjects` set of `detectSubjectConflict`: every
person-entity name referenced by the existing snippets, in first-seen
order. -/
def collectPersonSubjects (g : EntityGraphData) (snips : List SnippetRef) : List String :=
  snips.foldl
    (fun acc s =>
      ((getEntitiesForSnippet g s.id).filter (fun e => e.etype == "person")).foldl
        (fun acc2 e => addSubject acc2 e.name) acc)
    []

/-- The warning message interpolated by the source. -/
def conflictMessage (incoming : String) (existing : List String) : String :=
  "This snippet mentions \"" ++ incoming ++ "\", but the existing snippets are about \""
    ++ String.intercalate ", " existing ++ "\". Are you sure?"

/-- `detectSubjectConflict` (src/unnamed/part_012, lines 280–317): with an
entity graph, gather the person-entity names of the existing snippets;
the first person-entity of the new snippet whose name is absent from
that non-empty set yields a `person_mismatch` conflict; otherwise, and
without a graph (the elided text-matching fallback), no conflict. -/
def detectSubjectConflict (existingSnippets : List SnippetRef) (newSnippet : SnippetRef)
    (entityGraph : Option EntityGraphData) : Option SubjectConflict :=
  match entityGraph with
  | some g =>
    let existingSubjects := collectPersonSubjects g existingSnippets
    let newPersons := (getEntitiesForSnippet g newSnippet.id).filter (fun e => e.etype == "person")
    match newPersons.find? (fun p => !existingSubjects.isEmpty && !(existingSubjects.contains p.name)) with
    | some p =>
      some { ctype := "person_mismatch", existing := existingSubjects, incoming := p.name,
             message := conflictMessage p.name existingSubjects }
    | none => none
  | none => none

/-- Outcome of dropping a snippet onto an argument card. -/
inductive DropOutcome where
  | added
  | warned (conflict : SubjectConflict)
deriving DecidableEq

/-- `handleSnippetDrop` (src/unnamed/part_012, lines 330–344): a detected
conflict shows a warning — the drop is not rejected, the lawyer chooses
"Add anyway" or "Cancel" — otherwise the snippet is added immediately. -/
def handleSnippetDrop (existingSnippets : List SnippetRef) (newSnippet : SnippetRef)
    (entityGraph : Option EntityGraphData) : DropOutcome :=
  match detectSubjectConflict existingSnippets newSnippet entityGraph with
  | some c => .warned c
  | none => .added

/-- All person-entity names occurring in an entity graph. -/
def allPersonNames (g : EntityGraphData) : List String :=
  g.entitiesOf.foldl
    (fun acc p =>
      (p.2.filter (fun e => e.etype == "person")).foldl (fun a e => addSubject a e.name) acc)
    []

/-- How many of the given snippets reference the person-entity `name`. -/
def personReferenceCount (g : EntityGraphData) (snips : List SnippetRef) (name : String) : Nat :=
  (snips.filter
    (fun s => !((getEntitiesForSnippet g s.id).filter
      (fun e => e.etype == "person" && e.name == name)).isEmpty)).length

/-- Modelled from the spec: the dominant person-entity of a snippet set
is the person-entity referenced by the largest number of member snippets
(§4.3). Stated over the persons of the graph; used only to state claims,
the source detector computes no dominance. -/
def IsDominantPerson (g : EntityGraphData) (snips : List SnippetRef) (name : String) : Prop :=
  name ∈ allPersonNames g ∧ 0 < personReferenceCount g snips name ∧
    ∀ other ∈ allPersonNames g, other ≠ name →
      personReferenceCount g snips other < personReferenceCount g snips name

/-- Entity graph of the concrete scenario: snippets s1 and s2 are about
Dr. Chen, snippets s3 and s4 about Dr. Zhang. -/
def scenarioGraph : EntityGraphData :=
  ⟨[("s1", [⟨"Dr. Chen", "person"⟩]), ("s2", [⟨"Dr. Chen", "person"⟩]),
    ("s3", [⟨"Dr. Zhang", "person"⟩]), ("s4", [⟨"Dr. Zhang", "person"⟩])]⟩

/-- C5, counterexample: in `scenarioGraph` the argument holding s1, s2, s3
has dominant person Dr. Chen (2 of 3 snippets), the incoming snippet s4
has dominant person Dr. Zhang, the argument is non-empty — yet
`detectSubjectConflict` emits no conflict signal, because Dr. Zhang is
already among the person names of the existing snippets. -/
theorem detectSubjectConflict_dominance_counterexample :
    IsDominantPerson scenarioGraph [⟨"s1"⟩, ⟨"s2"⟩, ⟨"s3"⟩] "Dr. Chen" ∧
    IsDominantPerson scenarioGraph [⟨"s4"⟩] "Dr. Zhang" ∧
    "Dr. Chen" ≠ "Dr. Zhang" ∧
    ([⟨"s1"⟩, ⟨"s2"⟩, ⟨"s3"⟩] : List SnippetRef) ≠ [] ∧
    detectSubjectConflict [⟨"s1"⟩, ⟨"s2"⟩, ⟨"s3"⟩] ⟨"s4"⟩ (some scenarioGraph) = none := by
  refine ⟨?_, ?_, by decide, by decide, by decide⟩
  · exact ⟨by decide, by decide, by decide⟩
  · exact ⟨by decide, by decide, by decide⟩

/-- `detectSubjectConflict` with a graph is the image of the first
mismatching person found among the new snippet's person-entities. -/
theorem detectSubjectConflict_eq_find (existingSnippets : List SnippetRef)
    (newSnippet : SnippetRef) (g : EntityGraphData) :
    detectSubjectConflict existingSnippets newSnippet (some g) =
      Option.map
        (fun p =>
          ({ ctype := "person_mismatch",
             existing := collectPersonSubjects g existingSnippets,
             incoming := p.name,
             message := conflictMessage p.name (collectPersonSubjects g existingSnippets) } :
            SubjectConflict))
        (((getEntitiesForSnippet g newSnippet.id).filter (fun e => e.etype == "person")).find?
          (fun p => !(collectPersonSubjects g existingSnippets).isEmpty
            && !((collectPersonSubjects g existingSnippets).contains p.name))) := by
  cases h : (((getEntitiesForSnippet g newSnippet.id).filter (fun e => e.etype == "person")).find?
      (fun p => !(collectPersonSubjects g existingSnippets).isEmpty
        && !((collectPersonSubjects g existingSnippets).contains p.name))) with
  | none =>
    simp only [detectSubjectConflict]
    rw [h]
    rfl
  | some p =>
    simp only [detectSubjectConflict]
    rw [h]
    rfl

/-- C5, amended: the detector keys on person-name membership, not
dominance — a conflict is emitted exactly when the existing snippets
reference at least one person-entity and the new snippet references a
person-entity name absent from that set; the conflict names all existing
person subjects and the incoming person; on a conflict the drop handler
warns without rejecting (the caller decides), otherwise it adds. -/
theorem detectSubjectConflict_membership (existingSnippets : List SnippetRef)
    (newSnippet : SnippetRef) (g : EntityGraphData) :
    (∀ c, detectSubjectConflict existingSnippets newSnippet (some g) = some c →
      c.existing = collectPersonSubjects g existingSnippets ∧
      c.existing ≠ [] ∧
      c.incoming ∈ ((getEntitiesForSnippet g newSnippet.id).filter
        (fun e => e.etype == "person")).map Entity.name ∧
      c.incoming ∉ c.existing ∧
      handleSnippetDrop existingSnippets newSnippet (some g) = .warned c) ∧
    ((detectSubjectConflict existingSnippets newSnippet (some g)).isSome ↔
      (collectPersonSubjects g existingSnippets ≠ [] ∧
        ∃ n ∈ ((getEntitiesForSnippet g newSnippet.id).filter
          (fun e => e.etype == "person")).map Entity.name,
          n ∉ collectPersonSubjects g existingSnippets)) ∧
    (detectSubjectConflict existingSnippets newSnippet (some g) = none →
      handleSnippetDrop existingSnippets newSnippet (some g) = .added) := by
  have heq := detectSubjectConflict_eq_find existingSnippets newSnippet g
  cases hfq : (((getEntitiesForSnippet g newSnippet.id).filter (fun e => e.etype == "person")).find?
      (fun p => !(collectPersonSubjects g existingSnippets).isEmpty
        && !((collectPersonSubjects g existingSnippets).contains p.name))) with
  | none =>
    have heq0 : detectSubjectConflict existingSnippets newSnippet (some g) = none := by
      rw [heq, hfq]
      rfl
    have hall := List.find?_eq_none.mp hfq
    refine ⟨?_, ?_, ?_⟩
    · intro c hc
      rw [heq0] at hc
      exact absurd hc (by simp)
    · rw [heq0]
      simp only [Option.isSome_none, Bool.false_eq_true, false_iff]
      rintro ⟨hne, n, hn, hnc⟩
      rw [List.mem_map] at hn
      obtain ⟨p, hp, hpn⟩ := hn
      have hcontra := hall p hp
      simp only [Bool.and_eq_true, Bool.not_eq_true', List.isEmpty_iff, not_and] at hcontra
      rcases Decidable.em ((collectPersonSubjects g existingSnippets).isEmpty = true) with hemp | hemp
      · exact hne (List.isEmpty_iff.mp hemp)
      · have hc2 := hcontra (by
          cases hv : (collectPersonSubjects g existingSnippets).isEmpty
          · rfl
          · exact absurd hv hemp)
        rw [Bool.not_eq_false] at hc2
        have hmemc : p.name ∈ collectPersonSubjects g existingSnippets := by
          simpa using hc2
        rw [hpn] at hmemc
        exact hnc hmemc
    · intro h
      simp [handleSnippetDrop, h]
  | some p =>
    have heq0 : detectSubjectConflict existingSnippets newSnippet (some g) =
        some
          { ctype := "person_mismatch",
            existing := collectPersonSubjects g existingSnippets,
            incoming := p.name,
            message := conflictMessage p.name (collectPersonSubjects g existingSnippets) } := by
      rw [heq, hfq]
      rfl
    have hPp := List.find?_some hfq
    have hpmem := List.mem_of_find?_eq_some hfq
    have hcond : collectPersonSubjects g existingSnippets ≠ [] ∧
        p.name ∉ collectPersonSubjects g existingSnippets := by
      simpa [List.isEmpty_iff] using hPp
    refine ⟨?_, ?_, ?_⟩
    · intro c hc
      rw [heq0] at hc
      have hc' := Option.some_injective _ hc
      refine ⟨?_, ?_, ?_, ?_, ?_⟩
      · rw [← hc']
      · rw [← hc']
        exact hcond.1
      · rw [← hc']
        exact List.mem_map_of_mem Entity.name hpmem
      · rw [← hc']
        exact hcond.2
      · rw [← hc']
        simp [handleSnippetDrop, heq0]
    · rw [heq0]
      simp only [Option.isSome_some, true_iff]
      exact ⟨hcond.1, p.name, List.mem_map_of_mem Entity.name hpmem, hcond.2⟩
    · intro h
      rw [heq0] at h
      exact absurd h (by simp)

/-- Witness for C5's amended theorem: with only s1 (about Dr. Chen)
assembled and s4 (about Dr. Zhang) incoming, a person_mismatch warning
naming Dr. Chen and Dr. Zhang is emitted and the drop is not rejected. -/
theorem detectSubjectConflict_membership_witness :
    handleSnippetDrop [⟨"s1"⟩] ⟨"s4"⟩ (some scenarioGraph) =
      .warned ⟨"person_mismatch", ["Dr. Chen"], "Dr. Zhang",
        conflictMessage "Dr. Zhang" ["Dr. Chen"]⟩ := by
  have h := (detectSubjectConflict_membership [⟨"s1"⟩] ⟨"s4"⟩ scenarioGraph).1
    ⟨"person_mismatch", ["Dr. Chen"], "Dr. Zhang", conflictMessage "Dr. Zhang" ["Dr. Chen"]⟩
    (by decide)
  exact h.2.2.2.2

/-! ### Mapping graph (spec §4.4) -/

/-- A directed edge of the mapping graph from an argument to a legal
standard, with the AI-suggested vs human-confirmed flag. -/
structure MappingEdge where
  id : String
  source : String
  target : String
  isConfirmed : Bool
deriving DecidableEq

/-- Number of edges carried by one (argumentId, standardId) pair. -/
def pairCount (edges : List MappingEdge) (argumentId standardId : String) : Nat :=
  edges.countP (fun e => e.source == argumentId && e.target == standardId)

/-- Modelled from the spec: `addMapping(argumentId, standardId, confirmed)`
(§4.4) is implemented in context/AppContext.tsx, which is not among the
available sources. Per the contract it enforces the
at-most-one-edge-per-pair invariant: when an edge for the (source,
target) pair already exists its `isConfirmed` is updated in place,
otherwise a fresh edge is appended. -/
def addMapping (edges : List MappingEdge) (freshId argumentId standardId : String)
    (confirmed : Bool) : List MappingEdge :=
  if edges.any (fun e => e.source == argumentId && e.target == standardId) then
    edges.map (fun e =>
      if e.source == argumentId && e.target == standardId then
        { e with isConfirmed := confirmed }
      else e)
  else
    edges ++ [{ id := freshId, source := argumentId, target := standardId,
                isConfirmed := confirmed }]

theorem pairCount_map_setConfirmed (edges : List MappingEdge) (a s : String) (c : Bool)
    (a0 s0 : String) :
    pairCount (edges.map (fun e =>
      if e.source == a && e.target == s then { e with isConfirmed := c } else e)) a0 s0
      = pairCount edges a0 s0 := by
  unfold pairCount
  rw [List.countP_map]
  apply List.countP_congr
  intro e he
  by_cases h : (e.source == a && e.target == s) = true
  · simp [Function.comp, h]
  · simp [Function.comp, h]

theorem pairCount_pos_iff_any (edges : List MappingEdge) (a s : String) :
    0 < pairCount edges a s ↔
      edges.any (fun e => e.source == a && e.target == s) = true := by
  unfold pairCount
  rw [List.countP_pos_iff, List.any_eq_true]

/-- The pair-count bookkeeping of a single `addMapping` call: the touched
pair ends with `max` of its old count and one, every other pair is
untouched. -/
theorem pairCount_addMapping (edges : List MappingEdge) (fid a s : String) (c : Bool)
    (a0 s0 : String) :
    pairCount (addMapping edges fid a s c) a0 s0 =
      if a0 = a ∧ s0 = s then max (pairCount edges a s) 1 else pairCount edges a0 s0 := by
  unfold addMapping
  by_cases hany : edges.any (fun e => e.source == a && e.target == s) = true
  · rw [if_pos hany, pairCount_map_setConfirmed]
    by_cases hm : a0 = a ∧ s0 = s
    · rw [if_pos hm, hm.1, hm.2]
      have hpos : 0 < pairCount edges a s := (pairCount_pos_iff_any edges a s).mpr hany
      omega
    · rw [if_neg hm]
  · rw [if_neg hany]
    have hzero : pairCount edges a s = 0 := by
      by_contra h
      exact hany ((pairCount_pos_iff_any edges a s).mp (Nat.pos_of_ne_zero h))
    unfold pairCount at *
    rw [List.countP_append]
    by_cases hm : a0 = a ∧ s0 = s
    · rw [if_pos hm]
      obtain ⟨h1, h2⟩ := hm
      subst h1
      subst h2
      simp [List.countP_cons, hzero]
    · rw [if_neg hm]
      have hsingle : List.countP (fun e : MappingEdge => e.source == a0 && e.target == s0)
          [{ id := fid, source := a, target := s, isConfirmed := c }] = 0 := by
        simp only [List.countP_cons, List.countP_nil]
        have : (({ id := fid, source := a, target := s, isConfirmed := c } :
            MappingEdge).source == a0 &&
            ({ id := fid, source := a, target := s, isConfirmed := c } :
              MappingEdge).target == s0) = false := by
          rw [Bool.and_eq_false_iff]
          by_cases h1 : a = a0
          · right
            rw [beq_eq_false_iff_ne]
            intro h2
            exact hm ⟨h1.symm, h2.symm⟩
          · left
            rw [beq_eq_false_iff_ne]
            exact h1
        rw [this]
        simp
      omega

/-- When an edge for the pair already exists, `addMapping` is the
in-place `isConfirmed` update. -/
theorem addMapping_of_any (edges : List MappingEdge) (fid a s : String) (c : Bool)
    (h : edges.any (fun e => e.source == a && e.target == s) = true) :
    addMapping edges fid a s c = edges.map (fun e =>
      if e.source == a && e.target == s then { e with isConfirmed := c } else e) := by
  unfold addMapping
  rw [if_pos h]

/-- C1: for every (argumentId, standardId) pair at most one MappingEdge
exists at any time — starting from a state satisfying the invariant,
calling `addMapping` twice on the same pair with different confirmation
values leaves exactly one edge for the pair, its `isConfirmed` equal to
the latest call's value, and the invariant still holding for every
pair. -/
theorem addMapping_at_most_one_edge (edges : List MappingEdge) (a s id1 id2 : String)
    (c1 c2 : Bool) (hinv : ∀ a0 s0, pairCount edges a0 s0 ≤ 1) :
    pairCount (addMapping (addMapping edges id1 a s c1) id2 a s c2) a s = 1 ∧
    (∀ e ∈ addMapping (addMapping edges id1 a s c1) id2 a s c2,
      e.source = a → e.target = s → e.isConfirmed = c2) ∧
    (∀ a0 s0, pairCount (addMapping (addMapping edges id1 a s c1) id2 a s c2) a0 s0 ≤ 1) := by
  have h1 : pairCount (addMapping edges id1 a s c1) a s = 1 := by
    rw [pairCount_addMapping]
    rw [if_pos ⟨rfl, rfl⟩]
    have := hinv a s
    omega
  have hany1 : (addMapping edges id1 a s c1).any
      (fun e => e.source == a && e.target == s) = true := by
    apply (pairCount_pos_iff_any _ a s).mp
    omega
  refine ⟨?_, ?_, ?_⟩
  · rw [pairCount_addMapping, if_pos ⟨rfl, rfl⟩, h1]
    omega
  · intro e he hsrc htgt
    rw [addMapping_of_any _ _ _ _ _ hany1] at he
    rw [List.mem_map] at he
    obtain ⟨e0, _, heq⟩ := he
    by_cases h : (e0.source == a && e0.target == s) = true
    · rw [if_pos h] at heq
      rw [← heq]
    · rw [if_neg h] at heq
      exfalso
      apply h
      rw [← heq] at hsrc htgt
      rw [Bool.and_eq_true, beq_iff_eq, beq_iff_eq]
      exact ⟨hsrc, htgt⟩
  · intro a0 s0
    rw [pairCount_addMapping]
    by_cases hm : a0 = a ∧ s0 = s
    · rw [if_pos hm, h1]
      omega
    · rw [if_neg hm, pairCount_addMapping, if_neg hm]
      exact hinv a0 s0

/-- Witness for C1: from the empty mapping graph, adding the same
argument→standard pair as suggested and then as confirmed leaves one
confirmed edge. -/
theorem addMapping_at_most_one_edge_witness :
    pairCount (addMapping (addMapping [] "m1" "arg-1" "standard-1" false)
      "m2" "arg-1" "standard-1" true) "arg-1" "standard-1" = 1 ∧
    (∀ e ∈ addMapping (addMapping [] "m1" "arg-1" "standard-1" false)
        "m2" "arg-1" "standard-1" true,
      e.source = "arg-1" → e.target = "standard-1" → e.isConfirmed = true) := by
  have h := addMapping_at_most_one_edge [] "arg-1" "standard-1" "m1" "m2" false true
    (fun a0 s0 => by simp [pairCount])
  exact ⟨h.1, h.2.1⟩

/-! ### Merge resolution engine (spec §4.2) -/

/-- Status of a merge suggestion, as in the `MergeSuggestion` interface of
the EntityMergeModal source. -/
inductive MergeStatus where
  | pending
  | accepted
  | rejected
deriving DecidableEq

/-- A proposed entity-identity merge, following the `MergeSuggestion`
interface of the EntityMergeModal source; the `applied` flag is modelled
from the spec's requirement that already-applied suggestions are skipped
silently on a repeated `applyMerges` call. -/
structure MergeSuggestion where
  id : String
  primary_entity_name : String
  primary_entity_type : String
  merge_entity_names : List String
  reason : String
  confidence : ℚ
  status : MergeStatus
  applied : Bool
deriving DecidableEq

/-- A snippet reduced to its entity references, the data `applyMerges`
rewrites. -/
structure EntitySnippet where
  id : String
  entityRefs : List String
deriving DecidableEq

/-- The entity graph acted on by the merge resolution engine. -/
structure MergeState where
  snippets : List EntitySnippet
  suggestions : List MergeSuggestion
deriving DecidableEq

/-- Modelled from the spec: the complete application of one accepted
suggestion — every snippet reference to one of its alias entities is
rewritten to the primary entity id (§4.2). -/
def applySuggestion (snippets : List EntitySnippet) (sug : MergeSuggestion) :
    List EntitySnippet :=
  snippets.map fun sn =>
    { sn with entityRefs := sn.entityRefs.map fun r =>
        if r ∈ sug.merge_entity_names then sug.primary_entity_name else r }

/-- A suggestion is applied by `applyMerges` iff it is accepted and not
yet applied. -/
def isApplicable (sug : MergeSuggestion) : Bool :=
  sug.status == .accepted && !sug.applied

/-- Modelled from the spec: `applyMerges()` (§4.2) is implemented in
context/AppContext.tsx and the backend merge engine, which are not among
the available sources. Per the contract, each accepted and not yet
applied suggestion is applied as a whole and marked applied; rejected and
already-applied suggestions are skipped silently. -/
def applyMerges (st : MergeState) : MergeState :=
  { snippets := (st.suggestions.filter isApplicable).foldl applySuggestion st.snippets,
    suggestions := st.suggestions.map fun sug =>
      if isApplicable sug then { sug with applied := true } else sug }

/-- An accept/reject decision recorded by the merge review. -/
inductive MergeDecision where
  | accepted
  | rejected
deriving DecidableEq

/-- The status recorded for a decision. -/
def decisionStatus : MergeDecision → MergeStatus
  | .accepted => .accepted
  | .rejected => .rejected

/-- Modelled from the spec: `confirmMerges(decisions)` records
accept/reject per suggestion id (§4.2); its implementation lives in
context/AppContext.tsx and the backend, not among the available
sources. -/
def confirmMerges (st : MergeState) (decisions : List (String × MergeDecision)) :
    MergeState :=
  { st with suggestions := st.suggestions.map fun sug =>
      match decisions.lookup sug.id with
      | some d => { sug with status := decisionStatus d }
      | none => sug }

/-- The confirmations emitted by the EntityMergeModal
(handleDecision/handleConfirm, SentenceSpan.tsx file, lines 140–173):
Accept/Reject buttons are rendered only for
`pendingSuggestions = suggestions.filter(s => s.status === 'pending')`,
so every emitted confirmation names a pending suggestion; `choose` models
which button the user clicked per rendered suggestion, if any. -/
def modalConfirmations (suggestions : List MergeSuggestion)
    (choose : String → Option MergeDecision) : List (String × MergeDecision) :=
  (suggestions.filter (fun s => s.status == .pending)).filterMap fun s =>
    (choose s.id).map fun d => (s.id, d)

theorem lookup_mem {l : List (String × MergeDecision)} {k : String} {d : MergeDecision}
    (h : l.lookup k = some d) : (k, d) ∈ l := by
  induction l with
  | nil => exact absurd h (by simp [List.lookup])
  | cons p t ih =>
    rw [List.lookup] at h
    by_cases hk : (k == p.1) = true
    · simp only [hk] at h
      have : p.2 = d := by injection h
      rw [beq_iff_eq] at hk
      rw [hk, ← this]
      exact List.mem_cons_self p t
    · rw [Bool.not_eq_true] at hk
      simp only [hk] at h
      exact List.mem_cons_of_mem p (ih h)

theorem modalConfirmations_pending {suggestions : List MergeSuggestion}
    {choose : String → Option MergeDecision} {k : String} {d : MergeDecision}
    (h : (k, d) ∈ modalConfirmations suggestions choose) :
    ∃ s0 ∈ suggestions, s0.id = k ∧ s0.status = .pending := by
  unfold modalConfirmations at h
  rw [List.mem_filterMap] at h
  obtain ⟨s0, hs0, hmap⟩ := h
  rw [List.mem_filter] at hs0
  refine ⟨s0, hs0.1, ?_, by simpa using hs0.2⟩
  cases hc : choose s0.id with
  | none =>
    rw [hc] at hmap
    exact absurd hmap (by simp)
  | some d0 =>
    rw [hc] at hmap
    simp only [Option.map_some'] at hmap
    injection hmap with hpair
    have := congrArg Prod.fst hpair
    simpa using this

theorem applyMerges_of_no_applicable (st : MergeState)
    (h : ∀ s ∈ st.suggestions, isApplicable s = false) : applyMerges st = st := by
  have hfilter : st.suggestions.filter isApplicable = [] := by
    rw [List.filter_eq_nil_iff]
    intro s hs
    rw [h s hs]
    simp
  have hmap : (st.suggestions.map fun sug =>
      if isApplicable sug then { sug with applied := true } else sug) = st.suggestions := by
    have : ∀ s ∈ st.suggestions, (if isApplicable s then { s with applied := true } else s) = s := by
      intro s hs
      rw [h s hs]
      simp
    calc (st.suggestions.map fun sug =>
          if isApplicable sug then { sug with applied := true } else sug)
        = st.suggestions.map id := List.map_congr_left this
      _ = st.suggestions := List.map_id st.suggestions
  unfold applyMerges
  rw [hfilter, hmap]
  rfl

theorem applyMerges_suggestions_inert (st : MergeState) :
    ∀ s ∈ (applyMerges st).suggestions, isApplicable s = false := by
  intro s hs
  unfold applyMerges at hs
  simp only at hs
  rw [List.mem_map] at hs
  obtain ⟨s0, _, heq⟩ := hs
  by_cases h : isApplicable s0 = true
  · rw [if_pos h] at heq
    rw [← heq]
    unfold isApplicable
    simp
  · rw [if_neg h] at heq
    rw [← heq]
    exact Bool.eq_false_iff.mpr h

theorem applyMerges_applyMerges (st : MergeState) :
    applyMerges (applyMerges st) = applyMerges st :=
  applyMerges_of_no_applicable (applyMerges st) (applyMerges_suggestions_inert st)

/-- No snippet in `snips` references an alias of `sug`. -/
def NoAliasRef (sug : MergeSuggestion) (snips : List EntitySnippet) : Prop :=
  ∀ sn ∈ snips, ∀ r ∈ sn.entityRefs, r ∉ sug.merge_entity_names

theorem noAliasRef_applySuggestion_self (sug : MergeSuggestion)
    (snips : List EntitySnippet) (hself : sug.primary_entity_name ∉ sug.merge_entity_names) :
    NoAliasRef sug (applySuggestion snips sug) := by
  intro sn hsn r hr
  unfold applySuggestion at hsn
  rw [List.mem_map] at hsn
  obtain ⟨sn0, _, heq⟩ := hsn
  rw [← heq] at hr
  simp only at hr
  rw [List.mem_map] at hr
  obtain ⟨r0, _, heqr⟩ := hr
  by_cases h : r0 ∈ sug.merge_entity_names
  · rw [if_pos h] at heqr
    rw [← heqr]
    exact hself
  · rw [if_neg h] at heqr
    rw [← heqr]
    exact h

theorem noAliasRef_applySuggestion_other (sug t : MergeSuggestion)
    (snips : List EntitySnippet) (hP : NoAliasRef sug snips)
    (ht : t.primary_entity_name ∉ sug.merge_entity_names) :
    NoAliasRef sug (applySuggestion snips t) := by
  intro sn hsn r hr
  unfold applySuggestion at hsn
  rw [List.mem_map] at hsn
  obtain ⟨sn0, hsn0, heq⟩ := hsn
  rw [← heq] at hr
  simp only at hr
  rw [List.mem_map] at hr
  obtain ⟨r0, hr0, heqr⟩ := hr
  by_cases h : r0 ∈ t.merge_entity_names
  · rw [if_pos h] at heqr
    rw [← heqr]
    exact ht
  · rw [if_neg h] at heqr
    rw [← heqr]
    exact hP sn0 hsn0 r0 hr0

theorem noAliasRef_foldl (sug : MergeSuggestion) (l : List MergeSuggestion)
    (init : List EntitySnippet) (hP : NoAliasRef sug init)
    (hl : ∀ t ∈ l, t.primary_entity_name ∉ sug.merge_entity_names) :
    NoAliasRef sug (l.foldl applySuggestion init) := by
  induction l generalizing init with
  | nil => exact hP
  | cons t ts ih =>
    rw [List.foldl_cons]
    exact ih (applySuggestion init t)
      (noAliasRef_applySuggestion_other sug t init hP (hl t (List.mem_cons_self t ts)))
      (fun u hu => hl u (List.mem_cons_of_mem t hu))

/-- C2: `applyMerges()` is idempotent — a second call leaves the entity
graph unchanged — and atomic per suggestion: for an accepted, not yet
applied suggestion whose alias names are not reintroduced as primaries of
other applicable suggestions, all of its alias redirections are in the
result, i.e. no snippet reference to any of its aliases survives. -/
theorem applyMerges_idempotent_atomic (st : MergeState) :
    applyMerges (applyMerges st) = applyMerges st ∧
    ∀ sug ∈ st.suggestions, sug.status = .accepted → sug.applied = false →
      (∀ t ∈ st.suggestions, t.status = .accepted → t.applied = false →
        t.primary_entity_name ∉ sug.merge_entity_names) →
      NoAliasRef sug (applyMerges st).snippets := by
  refine ⟨applyMerges_applyMerges st, ?_⟩
  intro sug hmem hacc happ hdisj
  have happlic : isApplicable sug = true := by
    unfold isApplicable
    rw [hacc, happ]
    rfl
  have hmemf : sug ∈ st.suggestions.filter isApplicable :=
    List.mem_filter.mpr ⟨hmem, happlic⟩
  obtain ⟨l1, l2, hsplit⟩ := List.append_of_mem hmemf
  have hsub : ∀ t ∈ st.suggestions.filter isApplicable,
      t.primary_entity_name ∉ sug.merge_entity_names := by
    intro t htf
    have ht := List.mem_filter.mp htf
    have htapp : t.status = .accepted ∧ t.applied = false := by
      have := ht.2
      unfold isApplicable at this
      rw [Bool.and_eq_true, beq_iff_eq, Bool.not_eq_true'] at this
      exact this
    exact hdisj t ht.1 htapp.1 htapp.2
  show NoAliasRef sug ((st.suggestions.filter isApplicable).foldl applySuggestion st.snippets)
  rw [hsplit, List.foldl_append, List.foldl_cons]
  apply noAliasRef_foldl
  · apply noAliasRef_applySuggestion_self
    exact hsub sug hmemf
  · intro t ht
    apply hsub
    rw [hsplit]
    exact List.mem_append_right l1 (List.mem_cons_of_mem sug ht)

/-- One concrete accepted suggestion merging the alias Chen Z. into
Dr. Chen. -/
def sampleSuggestion : MergeSuggestion :=
  { id := "ms1", primary_entity_name := "Dr. Chen", primary_entity_type := "person",
    merge_entity_names := ["Chen Z."], reason := "same person", confidence := 9/10,
    status := .accepted, applied := false }

/-- A concrete entity graph: one snippet referencing the alias, plus the
accepted sample suggestion. -/
def sampleMergeState : MergeState :=
  { snippets := [{ id := "sn1", entityRefs := ["Chen Z.", "IEEE"] }],
    suggestions := [sampleSuggestion] }

/-- Witness for C2: on the concrete graph, a second `applyMerges` changes
nothing and no reference to the alias Chen Z. survives the first call. -/
theorem applyMerges_idempotent_atomic_witness :
    applyMerges (applyMerges sampleMergeState) = applyMerges sampleMergeState ∧
    NoAliasRef sampleSuggestion (applyMerges sampleMergeState).snippets := by
  have h := applyMerges_idempotent_atomic sampleMergeState
  refine ⟨h.1, h.2 sampleSuggestion ?_ rfl rfl ?_⟩
  · exact List.mem_cons_self sampleSuggestion []
  · intro t htmem _ _
    have : t = sampleSuggestion := by
      rcases List.mem_cons.mp htmem with h1 | h1
      · exact h1
      · exact absurd h1 (List.not_mem_nil t)
    rw [this]
    decide

/-- The transitions a merge suggestion may take under review: unchanged,
or pending to accepted/rejected. -/
def AllowedTransition (sug sug' : MergeSuggestion) : Prop :=
  sug' = sug ∨ (sug.status = .pending ∧ (sug'.status = .accepted ∨ sug'.status = .rejected))

/-- C6: merge-suggestion statuses move only pending→{accepted, rejected}
under a modal-driven `confirmMerges` (never out of accepted/rejected,
never back to pending), a state whose suggestions are all rejected or
already applied is left untouched by `applyMerges` (skipped silently),
and a repeated `applyMerges` never double-merges. -/
theorem mergeSuggestion_lifecycle (st : MergeState)
    (choose : String → Option MergeDecision)
    (hnodup : (st.suggestions.map MergeSuggestion.id).Nodup) :
    List.Forall₂ AllowedTransition st.suggestions
      (confirmMerges st (modalConfirmations st.suggestions choose)).suggestions ∧
    ((∀ s ∈ st.suggestions, s.status = .rejected ∨ s.applied = true) →
      applyMerges st = st) ∧
    applyMerges (applyMerges st) = applyMerges st := by
  refine ⟨?_, ?_, applyMerges_applyMerges st⟩
  · show List.Forall₂ AllowedTransition st.suggestions
      (st.suggestions.map fun sug =>
        match (modalConfirmations st.suggestions choose).lookup sug.id with
        | some d => { sug with status := decisionStatus d }
        | none => sug)
    rw [List.forall₂_map_right_iff]
    rw [List.forall₂_same]
    intro sug hmem
    cases hl : (modalConfirmations st.suggestions choose).lookup sug.id with
    | none =>
      left
      rfl
    | some d =>
      right
      obtain ⟨s0, hs0mem, hs0id, hs0pending⟩ := modalConfirmations_pending (lookup_mem hl)
      have hs0eq : s0 = sug :=
        List.inj_on_of_nodup_map hnodup hs0mem hmem (by rw [hs0id])
      refine ⟨by rw [← hs0eq]; exact hs0pending, ?_⟩
      cases d with
      | accepted => exact Or.inl rfl
      | rejected => exact Or.inr rfl
  · intro hall
    apply applyMerges_of_no_applicable
    intro s hs
    unfold isApplicable
    rcases hall s hs with h1 | h1
    · rw [h1]
      rfl
    · rw [h1]
      simp

/-- A review state with one pending and one rejected suggestion. -/
def sampleReviewState : MergeState :=
  { snippets := [],
    suggestions :=
      [{ id := "ms1", primary_entity_name := "Dr. Chen", primary_entity_type := "person",
         merge_entity_names := ["Chen Z."], reason := "same person", confidence := 9/10,
         status := .pending, applied := false },
       { id := "ms2", primary_entity_name := "MIT", primary_entity_type := "organization",
         merge_entity_names := ["M.I.T."], reason := "same org", confidence := 4/5,
         status := .rejected, applied := false }] }

/-- A state whose suggestions are all rejected or already applied. -/
def sampleSettledState : MergeState :=
  { snippets := [{ id := "sn1", entityRefs := ["Dr. Chen"] }],
    suggestions :=
      [{ id := "ms3", primary_entity_name := "Dr. Chen", primary_entity_type := "person",
         merge_entity_names := ["Chen Z."], reason := "same person", confidence := 9/10,
         status := .accepted, applied := true },
       { id := "ms4", primary_entity_name := "MIT", primary_entity_type := "organization",
         merge_entity_names := ["M.I.T."], reason := "same org", confidence := 4/5,
         status := .rejected, applied := false }] }

/-- The reviewer accepting the first suggestion in the modal. -/
def sampleChoice : String → Option MergeDecision :=
  fun id => if id = "ms1" then some .accepted else none

/-- Witness for C6: the concrete review moves only allowed transitions,
and `applyMerges` leaves the settled state unchanged. -/
theorem mergeSuggestion_lifecycle_witness :
    List.Forall₂ AllowedTransition sampleReviewState.suggestions
      (confirmMerges sampleReviewState
        (modalConfirmations sampleReviewState.suggestions sampleChoice)).suggestions ∧
    applyMerges sampleSettledState = sampleSettledState := by
  have h1 := mergeSuggestion_lifecycle sampleReviewState sampleChoice (by decide)
  have h2 := mergeSuggestion_lifecycle sampleSettledState sampleChoice (by decide)
  exact ⟨h1.1, h2.2.1 (by decide)⟩

/-! ### Bulk argument generation (spec §4.3) -/

/-- The claim types of the data model (§3). -/
inductive ClaimType where
  | award
  | membership
  | publication
  | contribution
  | salary
  | judging
  | media
  | leading_role
  | exhibition
  | commercial
  | other
deriving DecidableEq

/-- Every claim type, once. -/
def claimTypes : List ClaimType :=
  [.award, .membership, .publication, .contribution, .salary, .judging, .media,
   .leading_role, .exhibition, .commercial, .other]

theorem mem_claimTypes (ct : ClaimType) : ct ∈ claimTypes := by
  cases ct <;> decide

/-- A snippet as seen by the bulk generator, after attribution analysis:
its id, its dominant subject, and its claim type. -/
structure AttributedSnippet where
  snippet_id : String
  subject : String
  claimType : ClaimType
deriving DecidableEq

/-- The result of bulk generation: the snippet-id sets of the generated
argument groups, and the ids excluded from auto-grouping. -/
structure GeneratedGroups where
  groups : List (List String)
  unassigned_snippet_ids : List String
deriving DecidableEq

/-- Modelled from the spec: `generateArguments(applicantName)` (§4.3) is
implemented by the backend argument generator, which is not among the
available sources. Per the contract, snippets whose dominant subject is
the applicant are sub-grouped by claim type — each non-empty bucket
becomes one generated argument — and snippets whose dominant subject is
not the applicant are excluded from auto-grouping and reported in the
`unassigned_snippet_ids` list, never silently dropped. -/
def generateArguments (applicantName : String) (snips : List AttributedSnippet) :
    GeneratedGroups :=
  let mine := snips.filter (fun s => s.subject == applicantName)
  let rest := snips.filter (fun s => !(s.subject == applicantName))
  { groups := (claimTypes.map (fun ct =>
      (mine.filter (fun s => s.claimType == ct)).map AttributedSnippet.snippet_id)).filter
        (fun grp => !grp.isEmpty),
    unassigned_snippet_ids := rest.map AttributedSnippet.snippet_id }

theorem mem_join_filter_nonempty (l : List (List String)) (x : String) :
    x ∈ (l.filter (fun g => !g.isEmpty)).flatten ↔ x ∈ l.flatten := by
  rw [List.mem_flatten, List.mem_flatten]
  constructor
  · rintro ⟨g, hg, hx⟩
    exact ⟨g, (List.mem_filter.mp hg).1, hx⟩
  · rintro ⟨g, hg, hx⟩
    refine ⟨g, List.mem_filter.mpr ⟨hg, ?_⟩, hx⟩
    have : g ≠ [] := List.ne_nil_of_mem hx
    simp [List.isEmpty_iff, this]

theorem mem_generateArguments_groups (applicantName : String)
    (snips : List AttributedSnippet) (x : String) :
    x ∈ (generateArguments applicantName snips).groups.flatten ↔
      ∃ s ∈ snips, s.snippet_id = x ∧ s.subject = applicantName := by
  unfold generateArguments
  rw [mem_join_filter_nonempty, List.mem_flatten]
  constructor
  · rintro ⟨g, hg, hx⟩
    rw [List.mem_map] at hg
    obtain ⟨ct, _, hgeq⟩ := hg
    rw [← hgeq, List.mem_map] at hx
    obtain ⟨s, hs, hsid⟩ := hx
    rw [List.mem_filter] at hs
    have hs2 := List.mem_filter.mp hs.1
    refine ⟨s, hs2.1, hsid, ?_⟩
    simpa using hs2.2
  · rintro ⟨s, hs, hsid, hsubj⟩
    refine ⟨(snips.filter (fun t => t.subject == applicantName)).filter
        (fun t => t.claimType == s.claimType)
      |>.map AttributedSnippet.snippet_id, ?_, ?_⟩
    · rw [List.mem_map]
      exact ⟨s.claimType, mem_claimTypes s.claimType, rfl⟩
    · rw [List.mem_map]
      refine ⟨s, ?_, hsid⟩
      rw [List.mem_filter]
      refine ⟨List.mem_filter.mpr ⟨hs, by simpa using hsubj⟩, by simp⟩

theorem mem_generateArguments_unassigned (applicantName : String)
    (snips : List AttributedSnippet) (x : String) :
    x ∈ (generateArguments applicantName snips).unassigned_snippet_ids ↔
      ∃ s ∈ snips, s.snippet_id = x ∧ s.subject ≠ applicantName := by
  unfold generateArguments
  rw [List.mem_map]
  constructor
  · rintro ⟨s, hs, hsid⟩
    rw [List.mem_filter] at hs
    refine ⟨s, hs.1, hsid, ?_⟩
    have := hs.2
    simpa using this
  · rintro ⟨s, hs, hsid, hsubj⟩
    refine ⟨s, ?_, hsid⟩
    rw [List.mem_filter]
    exact ⟨hs, by simpa using hsubj⟩

/-- C3: `generateArguments(applicantName)` partitions its input — a
snippet's id lands in the generated groups iff its dominant subject is
the applicant, in the unassigned report iff it is not; with distinct
input ids no id appears in two generated groups; and every reported id
comes from the input, so no snippet is silently dropped. -/
theorem generateArguments_partition (applicantName : String)
    (snips : List AttributedSnippet)
    (hnodup : (snips.map AttributedSnippet.snippet_id).Nodup) :
    (∀ s ∈ snips, (s.snippet_id ∈ (generateArguments applicantName snips).groups.flatten ↔
      s.subject = applicantName)) ∧
    (∀ s ∈ snips, (s.snippet_id ∈ (generateArguments applicantName snips).unassigned_snippet_ids ↔
      s.subject ≠ applicantName)) ∧
    (∀ x : String,
      (x ∈ (generateArguments applicantName snips).groups.flatten ∨
        x ∈ (generateArguments applicantName snips).unassigned_snippet_ids) →
      ∃ s ∈ snips, s.snippet_id = x) ∧
    List.Pairwise (fun g1 g2 => ∀ x ∈ g1, x ∉ g2)
      (generateArguments applicantName snips).groups := by
  have hinj : ∀ ⦃a : AttributedSnippet⦄, a ∈ snips → ∀ ⦃b : AttributedSnippet⦄, b ∈ snips →
      a.snippet_id = b.snippet_id → a = b := fun a ha b hb h =>
    List.inj_on_of_nodup_map hnodup ha hb h
  refine ⟨?_, ?_, ?_, ?_⟩
  · intro s hs
    rw [mem_generateArguments_groups]
    constructor
    · rintro ⟨t, ht, htid, htsubj⟩
      rw [hinj hs ht htid.symm]
      exact htsubj
    · intro h
      exact ⟨s, hs, rfl, h⟩
  · intro s hs
    rw [mem_generateArguments_unassigned]
    constructor
    · rintro ⟨t, ht, htid, htsubj⟩
      rw [hinj hs ht htid.symm]
      exact htsubj
    · intro h
      exact ⟨s, hs, rfl, h⟩
  · intro x hx
    rcases hx with hx | hx
    · obtain ⟨s, hs, hsid, _⟩ := (mem_generateArguments_groups applicantName snips x).mp hx
      exact ⟨s, hs, hsid⟩
    · obtain ⟨s, hs, hsid, _⟩ := (mem_generateArguments_unassigned applicantName snips x).mp hx
      exact ⟨s, hs, hsid⟩
  · unfold generateArguments
    apply List.Pairwise.sublist (List.filter_sublist _)
    rw [List.pairwise_map]
    have hcts : List.Pairwise (fun a b : ClaimType => a ≠ b) claimTypes := by decide
    apply hcts.imp
    intro ct1 ct2 hne x hx1 hx2
    rw [List.mem_map] at hx1 hx2
    obtain ⟨s1, hs1, hs1id⟩ := hx1
    obtain ⟨s2, hs2, hs2id⟩ := hx2
    rw [List.mem_filter] at hs1 hs2
    have hs1m := List.mem_filter.mp hs1.1
    have hs2m := List.mem_filter.mp hs2.1
    have heq : s1 = s2 := hinj hs1m.1 hs2m.1 (by rw [hs1id, hs2id])
    have hct1 : s1.claimType = ct1 := by simpa using hs1.2
    have hct2 : s2.claimType = ct2 := by simpa using hs2.2
    apply hne
    rw [← hct1, ← hct2, heq]

/-- The spec's concrete scenario: snippets A and C are about Dr. Chen,
snippet B about Dr. Zhang. -/
def scenarioSnippets : List AttributedSnippet :=
  [{ snippet_id := "A", subject := "Dr. Chen", claimType := .award },
   { snippet_id := "B", subject := "Dr. Zhang", claimType := .award },
   { snippet_id := "C", subject := "Dr. Chen", claimType := .award }]

/-- Witness for C3 on the spec scenario: `generateArguments("Dr. Chen")`
groups A (and C) and reports B as unassigned. -/
theorem generateArguments_partition_witness :
    ("A" : String) ∈ (generateArguments "Dr. Chen" scenarioSnippets).groups.flatten ∧
    ("B" : String) ∈ (generateArguments "Dr. Chen" scenarioSnippets).unassigned_snippet_ids := by
  have h := generateArguments_partition "Dr. Chen" scenarioSnippets (by decide)
  constructor
  · exact (h.1 { snippet_id := "A", subject := "Dr. Chen", claimType := .award }
      (by decide)).mpr rfl
  · exact (h.2.1 { snippet_id := "B", subject := "Dr. Zhang", claimType := .award }
      (by decide)).mpr (by decide)

/-! ### Forward provenance resolution (spec §4.5) -/

/-- Match classification, per the `SnippetMatch` interface of the
provenance service source. -/
inductive MatchType where
  | explicit
  | semantic
deriving DecidableEq

/-- One resolved snippet reference of a sentence, following the
`SnippetMatch` interface (src/unnamed/part_008) restricted to the fields
the resolver computes. -/
structure SnippetMatch where
  snippet_id : String
  confidence : ℚ
  match_type : MatchType
deriving DecidableEq

/-- A generated sentence with its explicit citations, as produced by the
annotation step. -/
structure AnnotatedSentence where
  text : String
  cited_snippet_ids : List String
deriving DecidableEq

/-- A semantic-similarity candidate for a sentence. -/
structure SemanticCandidate where
  snippet_id : String
  similarity : ℚ
deriving DecidableEq

/-- The resolution method, per the provenance service source. -/
inductive ProvenanceMethod where
  | explicit
  | semantic
  | hybrid
deriving DecidableEq

/-- Modelled from the spec: forward provenance resolution (§4.5) is
implemented by the backend provenance engine, which is not among the
available sources (src/unnamed/part_008 only issues the API call).
Explicit matches come from direct citations and carry confidence 1.0;
semantic matches are the text-similarity fallback, kept only at or above
the minimum similarity threshold; "hybrid" prefers explicit matches and
falls back to semantic ones only for sentences without any explicit
citation, never replacing an explicit match; a citation-free sentence
below the threshold is transitional and yields zero references. -/
def resolveSentenceProvenance (minSimilarity : ℚ) (sentence : AnnotatedSentence)
    (candidates : List SemanticCandidate) (method : ProvenanceMethod) : List SnippetMatch :=
  let explicitMatches := sentence.cited_snippet_ids.map fun sid =>
    { snippet_id := sid, confidence := 1, match_type := MatchType.explicit }
  let semanticMatches :=
    (candidates.filter fun c => decide (minSimilarity ≤ c.similarity)).map fun c =>
      { snippet_id := c.snippet_id, confidence := c.similarity,
        match_type := MatchType.semantic }
  match method with
  | .explicit => explicitMatches
  | .semantic => semanticMatches
  | .hybrid =>
    if sentence.cited_snippet_ids.isEmpty then semanticMatches else explicitMatches

/-- C4: "hybrid" forward provenance prefers explicit matches — a sentence
with explicit citations resolves exactly to those snippets with
match_type explicit and confidence 1.0, with no semantically similar
uncited snippet added — and a citation-free sentence whose candidates are
all below the minimum similarity threshold is transitional and resolves
to zero references, an empty result rather than an error. -/
theorem hybrid_prefers_explicit (minSimilarity : ℚ) (sentence : AnnotatedSentence)
    (candidates : List SemanticCandidate) :
    (sentence.cited_snippet_ids ≠ [] →
      resolveSentenceProvenance minSimilarity sentence candidates .hybrid
        = sentence.cited_snippet_ids.map (fun sid =>
            { snippet_id := sid, confidence := 1, match_type := MatchType.explicit }) ∧
      ∀ m ∈ resolveSentenceProvenance minSimilarity sentence candidates .hybrid,
        m.match_type = .explicit ∧ m.confidence = 1 ∧
          m.snippet_id ∈ sentence.cited_snippet_ids) ∧
    (sentence.cited_snippet_ids = [] →
      (∀ c ∈ candidates, c.similarity < minSimilarity) →
      resolveSentenceProvenance minSimilarity sentence candidates .hybrid = []) := by
  constructor
  · intro hne
    have hemp : sentence.cited_snippet_ids.isEmpty = false := by
      simp [List.isEmpty_iff, hne]
    have heq : resolveSentenceProvenance minSimilarity sentence candidates .hybrid
        = sentence.cited_snippet_ids.map (fun sid =>
            { snippet_id := sid, confidence := 1, match_type := MatchType.explicit }) := by
      unfold resolveSentenceProvenance
      simp only [hemp]
      rfl
    refine ⟨heq, ?_⟩
    intro m hm
    rw [heq, List.mem_map] at hm
    obtain ⟨sid, hsid, hmeq⟩ := hm
    rw [← hmeq]
    exact ⟨rfl, rfl, hsid⟩
  · intro hnil hbelow
    have hemp : sentence.cited_snippet_ids.isEmpty = true := by
      simp [List.isEmpty_iff, hnil]
    have hfilter : (candidates.filter fun c => decide (minSimilarity ≤ c.similarity)) = [] := by
      rw [List.filter_eq_nil_iff]
      intro c hc
      simp only [decide_eq_true_eq]
      exact not_le.mpr (hbelow c hc)
    unfold resolveSentenceProvenance
    simp only [hemp, hfilter]
    rfl

/-- Witness for C4: the sentence citing snippet A resolves under "hybrid"
to exactly A as an explicit 1.0 match despite a highly similar uncited
candidate C, and the citation-free transitional sentence with only
below-threshold candidates resolves to no references. -/
theorem hybrid_prefers_explicit_witness :
    resolveSentenceProvenance (1/2)
        { text := "Dr. Chen received the IEEE Best Paper Award", cited_snippet_ids := ["A"] }
        [{ snippet_id := "C", similarity := 9/10 }] .hybrid
      = [{ snippet_id := "A", confidence := 1, match_type := MatchType.explicit }] ∧
    resolveSentenceProvenance (1/2)
        { text := "Moreover, his work continued", cited_snippet_ids := [] }
        [{ snippet_id := "C", similarity := 1/10 }] .hybrid
      = [] := by
  constructor
  · exact (hybrid_prefers_explicit (1/2)
      { text := "Dr. Chen received the IEEE Best Paper Award", cited_snippet_ids := ["A"] }
      [{ snippet_id := "C", similarity := 9/10 }] |>.1 (by decide)).1
  · refine hybrid_prefers_explicit (1/2)
      { text := "Moreover, his work continued", cited_snippet_ids := [] }
      [{ snippet_id := "C", similarity := 1/10 }] |>.2 rfl ?_
    intro c hc
    have : c = { snippet_id := "C", similarity := 1/10 } := by
      rcases List.mem_cons.mp hc with h | h
      · exact h
      · exact absurd h (List.not_mem_nil c)
    rw [this]
    norm_num

/-! ### Argument membership and partial updates (spec §4.3) -/

/-- Argument status, per the enhanced `Argument` interface
(src/unnamed/part_012, data model section). -/
inductive ArgumentStatus where
  | draft
  | verified
  | mapped
  | used
deriving DecidableEq

/-- The reviewer's decision on an argument. -/
inductive HumanDecision where
  | pending
  | approved
  | excluded
deriving DecidableEq

/-- An argument, per the enhanced `Argument` interface of the data model
(src/unnamed/part_012) plus the `humanDecision` review field used by
ArgumentCard. -/
structure Argument where
  id : String
  title : String
  subject : String
  claimType : ClaimType
  snippetIds : List String
  status : ArgumentStatus
  standardKey : Option String
  isAIGenerated : Bool
  humanDecision : Option HumanDecision
deriving DecidableEq

/-- Modelled from the spec: `removeSnippetFromArgument` (§4.3) is
implemented in context/AppContext.tsx, which is not among the available
sources. Per the contract it mutates membership only: the snippet id is
removed from the argument's snippet-id list, and the argument itself is
never deleted. -/
def removeSnippetFromArgument (args : List Argument) (argId snippetId : String) :
    List Argument :=
  args.map fun a =>
    if a.id == argId then
      { a with snippetIds := a.snippetIds.filter (fun sid => !(sid == snippetId)) }
    else a

/-- C7: removing an argument's last snippet never deletes the argument
implicitly — after the removal the argument list has the same length and
the argument is still present, in draft status, with an empty snippet-id
set. -/
theorem removeSnippet_keeps_argument (args : List Argument) (a : Argument)
    (snippetId : String) (hmem : a ∈ args) (hlast : a.snippetIds = [snippetId])
    (hdraft : a.status = .draft) :
    (removeSnippetFromArgument args a.id snippetId).length = args.length ∧
    ∃ a' ∈ removeSnippetFromArgument args a.id snippetId,
      a'.id = a.id ∧ a'.status = .draft ∧ a'.snippetIds = [] := by
  constructor
  · unfold removeSnippetFromArgument
    rw [List.length_map]
  · refine ⟨{ a with snippetIds := a.snippetIds.filter (fun sid => !(sid == snippetId)) },
      List.mem_map.mpr ⟨a, hmem, by simp⟩, rfl, hdraft, ?_⟩
    rw [hlast]
    simp

/-- Witness for C7: an argument holding only snippet s1 survives the
removal of s1 as an empty draft. -/
theorem removeSnippet_keeps_argument_witness :
    ∃ a' ∈ removeSnippetFromArgument
        [{ id := "a1", title := "Award", subject := "Dr. Chen", claimType := .award,
           snippetIds := ["s1"], status := .draft, standardKey := none,
           isAIGenerated := false, humanDecision := none }] "a1" "s1",
      a'.id = "a1" ∧ a'.status = .draft ∧ a'.snippetIds = [] := by
  have h := removeSnippet_keeps_argument
    [{ id := "a1", title := "Award", subject := "Dr. Chen", claimType := .award,
       snippetIds := ["s1"], status := .draft, standardKey := none,
       isAIGenerated := false, humanDecision := none }]
    { id := "a1", title := "Award", subject := "Dr. Chen", claimType := .award,
      snippetIds := ["s1"], status := .draft, standardKey := none,
      isAIGenerated := false, humanDecision := none }
    "s1" (by decide) rfl rfl
  exact h.2

/-- A partial update to an argument; `none` fields are left untouched. -/
structure ArgumentPatch where
  title : Option String
  subject : Option String
  claimType : Option ClaimType
  snippetIds : Option (List String)
  status : Option ArgumentStatus
  standardKey : Option (Option String)
  isAIGenerated : Option Bool
  humanDecision : Option (Option HumanDecision)
deriving DecidableEq

/-- Modelled from the spec: `updateArgument(id, patch)` (§4.3) supports
partial updates — present patch fields overwrite, absent fields leave the
argument unchanged; implemented in context/AppContext.tsx, not among the
available sources. -/
def applyPatch (a : Argument) (p : ArgumentPatch) : Argument :=
  { id := a.id, title := p.title.getD a.title, subject := p.subject.getD a.subject,
    claimType := p.claimType.getD a.claimType, snippetIds := p.snippetIds.getD a.snippetIds,
    status := p.status.getD a.status, standardKey := p.standardKey.getD a.standardKey,
    isAIGenerated := p.isAIGenerated.getD a.isAIGenerated,
    humanDecision := p.humanDecision.getD a.humanDecision }

/-- Modelled from the spec: the list-level `updateArgument`, patching the
argument with the given id. -/
def updateArgument (args : List Argument) (argId : String) (p : ArgumentPatch) :
    List Argument :=
  args.map fun a => if a.id == argId then applyPatch a p else a

/-- The patch emitted by the QualificationPanel Undo button:
`onUpdateArgument({ humanDecision: 'pending' })`. -/
def pendingDecisionPatch : ArgumentPatch :=
  { title := none, subject := none, claimType := none, snippetIds := none, status := none,
    standardKey := none, isAIGenerated := none, humanDecision := some (some .pending) }

/-- C8: setting an argument's review decision to "pending" resets only
`humanDecision` — pointwise over the list, the targeted argument keeps
its status, title, subject, claim type, snippet ids, standard key and
AI-generated flag, only its `humanDecision` becomes pending, and every
other argument is untouched. -/
theorem updateArgument_pending_frame (args : List Argument) (argId : String) :
    List.Forall₂ (fun a a' =>
      a'.id = a.id ∧ a'.title = a.title ∧ a'.subject = a.subject ∧
      a'.claimType = a.claimType ∧ a'.snippetIds = a.snippetIds ∧
      a'.status = a.status ∧ a'.standardKey = a.standardKey ∧
      a'.isAIGenerated = a.isAIGenerated ∧
      a'.humanDecision = (if a.id = argId then some .pending else a.humanDecision))
      args (updateArgument args argId pendingDecisionPatch) := by
  rw [updateArgument, List.forall₂_map_right_iff, List.forall₂_same]
  intro a _
  by_cases h : a.id = argId
  · have hb : (a.id == argId) = true := by simpa using h
    rw [if_pos hb]
    exact ⟨rfl, rfl, rfl, rfl, rfl, rfl, rfl, rfl, by rw [if_pos h]; rfl⟩
  · have hb : ¬((a.id == argId) = true) := by simpa using h
    rw [if_neg hb]
    exact ⟨rfl, rfl, rfl, rfl, rfl, rfl, rfl, rfl, by rw [if_neg h]⟩

end PetitionLetter
